import Mathlib

/-!
Verification development for a backtesting system consisting of a portfolio
ledger (`portfolio.py`), strategy signal generators (`strategy.py`) and a
backtest engine (`engine.py`).

Modelling conventions:
* Python floats are modelled as exact rationals (`ℚ`); a price cell is
  `Option ℚ` where `none` models a NaN entry, and column absence is tracked
  through the frame's column list.  NaN propagation through sums is modelled
  by `optAdd` below.
* Python dicts are modelled as insertion-ordered association lists with
  update-in-place-or-append insertion (`dictInsert`), matching dict key order.
* `pandas.Timestamp` is modelled by `Date`, carrying the calendar fields and
  the ISO week number (the value `isocalendar().week` would report); dates are
  ordered chronologically through `Date.key`.
* Python `int(x)` on a float truncates toward zero; this is `pyInt`.
* Paths on which the Python code would raise inside signal generation
  (`int(nan)` on a NaN portfolio value, `data.loc[date]` on an absent date)
  are modelled by an `Option` result, `none` meaning an exception.
-/

/-- Calendar date as carried by the pandas index: year, month, day and the
ISO week number that `isocalendar().week` reports for this date. -/
structure Date where
  y : Nat
  m : Nat
  d : Nat
  week : Nat
deriving DecidableEq

/-- Chronological sort key of a date (months have at most 31 days). -/
def Date.key (dt : Date) : Nat :=
  (dt.y * 12 + (dt.m - 1)) * 32 + dt.d

/-- Number of days in a month, with Gregorian leap years. -/
def daysInMonth (y : Nat) (m : Nat) : Nat :=
  if m = 2 then
    (if (y % 4 = 0 ∧ y % 100 ≠ 0) ∨ y % 400 = 0 then 29 else 28)
  else if m = 4 ∨ m = 6 ∨ m = 9 ∨ m = 11 then 30 else 31

/-- Subtraction of calendar months, as `date - pd.DateOffset(months=k)`:
the month is shifted and the day clamped to the target month's length. -/
def Date.subMonths (dt : Date) (k : Int) : Date :=
  let tot : Nat := dt.y * 12 + (dt.m - 1) - k.toNat
  let y' : Nat := tot / 12
  let m' : Nat := tot % 12 + 1
  ⟨y', m', min dt.d (daysInMonth y' m'), 0⟩

/-- Python `int()` applied to a real value: truncation toward zero. -/
def pyInt (q : ℚ) : Int :=
  if 0 ≤ q then ⌊q⌋ else -⌊-q⌋

/-- Lookup in an insertion-ordered association list (Python `dict.get(k, d)`). -/
def dictGetD {α : Type} (l : List (String × α)) (k : String) (dflt : α) : α :=
  match l.find? (fun e => e.1 = k) with
  | some e => e.2
  | none => dflt

/-- Key membership in an association list (Python `k in dict`). -/
def keyMem {α : Type} (l : List (String × α)) (k : String) : Bool :=
  (l.find? (fun e => e.1 = k)).isSome

/-- Python dict assignment `d[k] = v`: updates the value in place when the key
is present, otherwise appends the new binding at the end. -/
def dictInsert {α : Type} (l : List (String × α)) (k : String) (v : α) : List (String × α) :=
  match l with
  | [] => [(k, v)]
  | e :: rest => if e.1 = k then (k, v) :: rest else e :: dictInsert rest k v

/-- Python `del d[k]`: removes the binding of `k`, keeping the others in order. -/
def dictErase {α : Type} (l : List (String × α)) (k : String) : List (String × α) :=
  l.filter (fun e => decide (e.1 ≠ k))

/-- One row of the market-data frame: column name to price cell; a `none`
cell is a NaN entry. -/
abbrev Row := List (String × Option ℚ)

/-- Cell of a row by column name; a column absent from the row reads as NaN. -/
def rowGet (r : Row) (c : String) : Option ℚ :=
  (r.find? (fun e => e.1 = c)).bind (fun e => e.2)

/-- The market-data frame: the column list and the date-indexed rows in
chronologically increasing order, with unique dates. -/
structure History where
  cols : List String
  rows : List (Date × Row)

/-- Row labelled by a date (`data.loc[date]`), `none` when the label is absent. -/
def rowAt (h : History) (dt : Date) : Option Row :=
  (h.rows.find? (fun r => r.1 = dt)).map (fun r => r.2)

/-- Column name used for a ticker's close price (`f'Close_{ticker}'`). -/
def priceCol (t : String) : String := "Close_" ++ t

/-- Python `Series.get(c)` on a row whose index is the column list: `none`
when the label is absent, otherwise the cell (which may itself be NaN). -/
def seriesGet (cols : List String) (r : Row) (c : String) : Option (Option ℚ) :=
  if c ∈ cols then some (rowGet r c) else none

/-- NaN-propagating addition of float values. -/
def optAdd : Option ℚ → Option ℚ → Option ℚ
  | some a, some b => some (a + b)
  | _, _ => none

/-- Evaluation lemma for `List.filterMap` on a cons cell, used to unfold
concrete computations. -/
theorem filterMap_cons_eval {α β : Type} (f : α → Option β) (a : α) (l : List α) :
    List.filterMap f (a :: l) = (f a).toList ++ List.filterMap f l := by
  cases h : f a <;> simp [List.filterMap_cons, h]

/-- One record of the ledger's transaction history, as appended by
`Portfolio._record_transaction`. -/
structure Transaction where
  date : Date
  ticker : String
  action : String
  quantity : Int
  price : ℚ
  cost : ℚ
deriving DecidableEq

/-- The portfolio ledger: initial cash, current cash, holdings dict
(ticker to share count) and the append-only transaction history. -/
structure Portfolio where
  initial_cash : ℚ
  cash : ℚ
  holdings : List (String × Int)
  transactions : List Transaction
deriving DecidableEq

/-- Freshly constructed ledger (`Portfolio.__init__`). -/
def mkPortfolio (initial_cash : ℚ) : Portfolio :=
  ⟨initial_cash, initial_cash, [], []⟩

/-- Translation of `Portfolio._record_transaction`: appends one record with the
absolute quantity and the notional `abs(quantity) * price`. -/
def Portfolio.record_transaction (p : Portfolio) (tdate : Date) (ticker : String)
    (quantity : Int) (price : ℚ) (action : String) : Portfolio :=
  { p with transactions :=
      p.transactions ++ [⟨tdate, ticker, action, |quantity|, price, (|quantity| : ℚ) * price⟩] }

/-- Translation of `Portfolio.execute_transaction`: a buy (`quantity > 0`)
requires enough cash, a sell (`quantity < 0`) requires enough shares; rejected
or zero-quantity calls leave the ledger unchanged, successful ones update cash
and holdings and record exactly one BUY or SELL transaction. -/
def Portfolio.execute_transaction (p : Portfolio) (ticker : String) (quantity : Int)
    (price : ℚ) (tdate : Date) : Portfolio :=
  let transaction_cost : ℚ := (quantity : ℚ) * price
  if 0 < quantity then
    if p.cash < transaction_cost then p
    else
      let p' := { p with
        holdings := dictInsert p.holdings ticker (dictGetD p.holdings ticker 0 + quantity),
        cash := p.cash - transaction_cost }
      p'.record_transaction tdate ticker quantity price "BUY"
  else if quantity < 0 then
    if dictGetD p.holdings ticker 0 < |quantity| then p
    else
      let newq := dictGetD p.holdings ticker 0 + quantity
      let h1 := dictInsert p.holdings ticker newq
      let p' := { p with
        holdings := if newq = 0 then dictErase h1 ticker else h1,
        cash := p.cash - transaction_cost }
      p'.record_transaction tdate ticker quantity price "SELL"
  else p

/-- Translation of `Portfolio.get_holdings_value`: sums `quantity * price`
over held tickers whose price column exists; a NaN cell poisons the float sum,
modelled by `optAdd`. -/
def Portfolio.get_holdings_value (p : Portfolio) (cols : List String) (r : Row) : Option ℚ :=
  p.holdings.foldl
    (fun acc e =>
      if priceCol e.1 ∈ cols then
        optAdd acc ((rowGet r (priceCol e.1)).map (fun pr => (e.2 : ℚ) * pr))
      else acc)
    (some 0)

/-- Translation of `Portfolio.get_total_value`: holdings value plus cash. -/
def Portfolio.get_total_value (p : Portfolio) (cols : List String) (r : Row) : Option ℚ :=
  (p.get_holdings_value cols r).map (fun v => v + p.cash)

/-- One requested order, as passed to `execute_transaction`. -/
structure Trade where
  ticker : String
  quantity : Int
  price : ℚ
  tdate : Date

/-- Sequential execution of a list of orders against the ledger; every call
the engine makes to `execute_transaction` is one step of such a sequence. -/
def runTransactions (p : Portfolio) (os : List Trade) : Portfolio :=
  os.foldl (fun acc o => acc.execute_transaction o.ticker o.quantity o.price o.tdate) p

/-- Sum of the notionals of the BUY records in a transaction history. -/
def buySum (ts : List Transaction) : ℚ :=
  (ts.filter (fun t => t.action = "BUY")).foldl (fun a t => a + t.cost) 0

/-- Sum of the notionals of the SELL records in a transaction history. -/
def sellSum (ts : List Transaction) : ℚ :=
  (ts.filter (fun t => t.action = "SELL")).foldl (fun a t => a + t.cost) 0

/-- Configuration of the momentum-rotation strategy (`MomentumStrategy`). -/
structure MomentumStrategy where
  tickers : List String
  lookback_months : Int
  rebalance_frequency : String
deriving DecidableEq

/-- Translation of `MomentumStrategy.__init__`: validation of the lookback
period and the rebalance frequency; an error value models the raised
`ValueError`. -/
def mkMomentumStrategy (tickers : List String) (lookback_months : Int)
    (rebalance_frequency : String) : Except String MomentumStrategy :=
  if lookback_months ≤ 0 then
    .error "Okres lookback musi byc dodatni."
  else if ¬ (rebalance_frequency ∈ ["daily", "weekly", "monthly"]) then
    .error "Czestotliwosc rebalansowania musi byc daily, weekly lub monthly."
  else
    .ok ⟨tickers, lookback_months, rebalance_frequency⟩

/-- Rebalance-day test of `MomentumStrategy.generate_signals`: daily always;
weekly when the date is the first row of the full history sharing its ISO week
number; monthly when it is the first row sharing its calendar month number. -/
def isRebalanceDay (freq : String) (dt : Date) (h : History) : Bool :=
  if freq = "daily" then true
  else if freq = "weekly" then
    match h.rows.filter (fun r => decide (r.1.week = dt.week)) with
    | [] => false
    | r :: _ => dt = r.1
  else if freq = "monthly" then
    match h.rows.filter (fun r => decide (r.1.m = dt.m)) with
    | [] => false
    | r :: _ => dt = r.1
  else false

/-- Rows of the lookback window `[date - lookback_months months, date)`. -/
def lookbackRows (h : History) (dt : Date) (lb : Int) : List (Date × Row) :=
  h.rows.filter (fun r =>
    decide ((dt.subMonths lb).key ≤ r.1.key ∧ r.1.key < dt.key))

/-- Momentum score of one ticker over the lookback rows: the simple return
over its valid (non-NaN) prices, defined only when the price column exists
and at least two valid prices lie in the window. -/
def tickerScore (h : History) (dt : Date) (lb : Int) (t : String) : Option ℚ :=
  if priceCol t ∈ h.cols then
    let prices := (lookbackRows h dt lb).filterMap (fun r => rowGet r.2 (priceCol t))
    if 1 < prices.length then
      some ((prices.getLast?.getD 0 - prices.head?.getD 0) / prices.head?.getD 0)
    else none
  else none

/-- The momentum dict-building loop: scores are inserted in ticker-list order
into an insertion-ordered dict. -/
def momentumLoop (h : History) (dt : Date) (lb : Int) :
    List String → List (String × ℚ) → List (String × ℚ)
  | [], acc => acc
  | t :: ts, acc =>
    match tickerScore h dt lb t with
    | none => momentumLoop h dt lb ts acc
    | some s => momentumLoop h dt lb ts (dictInsert acc t s)

/-- The momentum dict computed for the configured tickers. -/
def computeMomentum (h : History) (dt : Date) (lb : Int) (tickers : List String) :
    List (String × ℚ) :=
  momentumLoop h dt lb tickers []

/-- Scanning loop of Python `max(momentum, key=momentum.get)`: the best entry
is replaced only by a strictly greater score, so the first maximal entry in
iteration order wins. -/
def argmaxGo (bt : String) (bs : ℚ) : List (String × ℚ) → String × ℚ
  | [] => (bt, bs)
  | e :: rest => if bs < e.2 then argmaxGo e.1 e.2 rest else argmaxGo bt bs rest

/-- Python `max(momentum, key=momentum.get)` over a non-empty dict. -/
def argmaxFirst : List (String × ℚ) → Option (String × ℚ)
  | [] => none
  | e :: rest => some (argmaxGo e.1 e.2 rest)

/-- Liquidation signals of a rebalance: a full sell for every held ticker
other than the winner, in holdings order. -/
def liquidationSignals (p : Portfolio) (w : String) : List (String × Int) :=
  p.holdings.filterMap (fun e => if e.1 = w then none else some (e.1, -e.2))

/-- Final filter of a signal dict: only non-zero quantities are returned. -/
def filterNonzero (sig : List (String × Int)) : List (String × Int) :=
  sig.filter (fun e => decide (e.2 ≠ 0))

/-- Entry of a returned signal for a ticker. -/
def sigGet (sig : List (String × Int)) (t : String) : Option Int :=
  (sig.find? (fun e => e.1 = t)).map (fun e => e.2)

/-- Translation of `MomentumStrategy.generate_signals`.  The result is `none`
exactly on the paths where the Python code would raise: `data.loc[date]` with
the date absent from the history, and `int(total / price)` with the pre-trade
total poisoned by a NaN price of a held ticker. -/
def MomentumStrategy.generate_signals (s : MomentumStrategy) (dt : Date) (h : History)
    (p : Portfolio) : Option (List (String × Int)) :=
  if ¬ isRebalanceDay s.rebalance_frequency dt h then some []
  else if lookbackRows h dt s.lookback_months = [] then some []
  else
    let momentum := computeMomentum h dt s.lookback_months s.tickers
    if momentum = [] then some []
    else
      match argmaxFirst momentum with
      | none => some []
      | some w =>
        let sells := liquidationSignals p w.1
        match rowAt h dt with
        | none => none
        | some row =>
          let total := p.get_total_value h.cols row
          match seriesGet h.cols row (priceCol w.1) with
          | some (some v) =>
            if 0 < v then
              match total with
              | some tv =>
                let target : Int := pyInt (tv / v)
                let already_own : Int := dictGetD p.holdings w.1 0
                some (filterNonzero (dictInsert sells w.1 (target - already_own)))
              | none => none
            else some (filterNonzero sells)
          | _ => some (filterNonzero sells)

/-- Translation of `MonthlyInvestmentStrategy.generate_signals`, the state
field `last_investment_month` passed in and returned explicitly.  The ticker
and the monthly amount are the constructor arguments. -/
def MonthlyInvestmentStrategy.generate_signals (ticker : String) (monthly_investment : ℚ)
    (last_investment_month : Int) (dt : Date) (h : History) :
    List (String × Int) × Int :=
  if (dt.m : Int) ≠ last_investment_month then
    match h.rows.filter (fun r => decide (r.1.m = dt.m)) with
    | r0 :: _ =>
      if dt = r0.1 then
        if priceCol ticker ∈ h.cols then
          match rowAt h dt with
          | some row =>
            match rowGet row (priceCol ticker) with
            | some pr =>
              if 0 < pr then
                let q := pyInt (monthly_investment / pr)
                if 0 < q then ([(ticker, q)], (dt.m : Int))
                else ([], last_investment_month)
              else ([], last_investment_month)
            | none => ([], last_investment_month)
          | none => ([], last_investment_month)
        else ([], last_investment_month)
      else ([], last_investment_month)
    | [] => ([], last_investment_month)
  else ([], last_investment_month)

/-- Order-execution loop of `BacktestingEngine.run_backtest`: each signal
entry is executed in the signal's iteration order, skipped when the ticker
has no valid (non-NaN) price on the day. -/
def executeSignals (p : Portfolio) (dt : Date) (cols : List String) (row : Row)
    (signals : List (String × Int)) : Portfolio :=
  signals.foldl
    (fun acc e =>
      if priceCol e.1 ∈ cols then
        match rowGet row (priceCol e.1) with
        | some price => acc.execute_transaction e.1 e.2 price dt
        | none => acc
      else acc)
    p

/-- Full backtest run of the momentum strategy: the engine's daily loop with
signal generation and order execution (the valuation step touches no ledger
state).  `none` models an exception raised inside signal generation. -/
def momentumRun (s : MomentumStrategy) (h : History) (cash0 : ℚ) : Option Portfolio :=
  h.rows.foldl
    (fun acc r => acc.bind (fun p =>
      (s.generate_signals r.1 h p).map (fun sig => executeSignals p r.1 h.cols r.2 sig)))
    (some (mkPortfolio cash0))

/-- Full backtest run of the monthly-investment strategy: the engine's daily
loop threading the strategy's mutable month state. -/
def dcaRun (ticker : String) (monthly_investment : ℚ) (h : History) (cash0 : ℚ) :
    Portfolio × Int :=
  h.rows.foldl
    (fun acc r =>
      let step := MonthlyInvestmentStrategy.generate_signals ticker monthly_investment acc.2 r.1 h
      (executeSignals acc.1 r.1 h.cols r.2 step.1, step.2))
    (mkPortfolio cash0, -1)

/-- C2: for every call to `execute_transaction`: an underfunded buy, an
under-held sell, and a zero quantity each leave cash, holdings and the
transaction log unchanged; otherwise cash and holdings are updated and
exactly one record tagged BUY (for a buy) or SELL (for a sell) is appended
in the same call. -/
theorem execute_transaction_spec (p : Portfolio) (ticker : String) (quantity : Int)
    (price : ℚ) (tdate : Date) :
    (0 < quantity → p.cash < (quantity : ℚ) * price →
      p.execute_transaction ticker quantity price tdate = p) ∧
    (quantity < 0 → dictGetD p.holdings ticker 0 < |quantity| →
      p.execute_transaction ticker quantity price tdate = p) ∧
    (quantity = 0 → p.execute_transaction ticker quantity price tdate = p) ∧
    (0 < quantity → ¬ (p.cash < (quantity : ℚ) * price) →
      p.execute_transaction ticker quantity price tdate =
        { p with
          holdings := dictInsert p.holdings ticker (dictGetD p.holdings ticker 0 + quantity),
          cash := p.cash - (quantity : ℚ) * price,
          transactions := p.transactions ++
            [⟨tdate, ticker, "BUY", |quantity|, price, (|quantity| : ℚ) * price⟩] }) ∧
    (quantity < 0 → ¬ (dictGetD p.holdings ticker 0 < |quantity|) →
      p.execute_transaction ticker quantity price tdate =
        { p with
          holdings :=
            (if dictGetD p.holdings ticker 0 + quantity = 0
             then dictErase (dictInsert p.holdings ticker (dictGetD p.holdings ticker 0 + quantity)) ticker
             else dictInsert p.holdings ticker (dictGetD p.holdings ticker 0 + quantity)),
          cash := p.cash - (quantity : ℚ) * price,
          transactions := p.transactions ++
            [⟨tdate, ticker, "SELL", |quantity|, price, (|quantity| : ℚ) * price⟩] }) := by
  refine ⟨?_, ?_, ?_, ?_, ?_⟩
  · intro hq hc
    simp [Portfolio.execute_transaction, hq, hc]
  · intro hq hh
    have hq' : ¬ (0 < quantity) := by omega
    simp [Portfolio.execute_transaction, hq, hq', hh]
  · intro hq
    simp [Portfolio.execute_transaction, hq]
  · intro hq hc
    simp [Portfolio.execute_transaction, Portfolio.record_transaction, hq, hc]
  · intro hq hh
    have hq' : ¬ (0 < quantity) := by omega
    simp [Portfolio.execute_transaction, Portfolio.record_transaction, hq, hq', hh]

/-- Witness for C2: a buy of one share at price 10 with only 5 of cash is
rejected and the ledger is unchanged. -/
theorem execute_transaction_spec_witness :
    Portfolio.execute_transaction (mkPortfolio 5) "A" 1 10 ⟨2024, 1, 2, 1⟩ = mkPortfolio 5 :=
  (execute_transaction_spec (mkPortfolio 5) "A" 1 10 ⟨2024, 1, 2, 1⟩).1 (by norm_num)
    (by norm_num [mkPortfolio])

/-- A single `execute_transaction` call at a nonnegative price preserves
nonnegativity of cash: an accepted buy had enough cash, an accepted sell
only adds cash. -/
theorem execute_transaction_cash_nonneg (p : Portfolio) (t : String) (q : Int)
    (price : ℚ) (dt : Date) (hp : 0 ≤ price) (hc : 0 ≤ p.cash) :
    0 ≤ (p.execute_transaction t q price dt).cash := by
  unfold Portfolio.execute_transaction
  by_cases hq : 0 < q
  · by_cases hcost : p.cash < (q : ℚ) * price
    · simp [hq, hcost, hc]
    · simp only [hq, if_pos, hcost, if_neg, not_false_iff]
      simp [Portfolio.record_transaction]
      linarith [not_lt.mp hcost]
  · by_cases hq' : q < 0
    · by_cases hh : dictGetD p.holdings t 0 < |q|
      · simp [hq, hq', hh, hc]
      · have hqp : (q : ℚ) * price ≤ 0 := by
          have : (q : ℚ) ≤ 0 := by exact_mod_cast hq'.le
          exact mul_nonpos_iff.mpr (Or.inr ⟨this, hp⟩)
        simp only [hq, if_neg, not_false_iff, hq', if_pos, hh]
        simp [Portfolio.record_transaction]
        linarith
    · simp [hq, hq', hc]

/-- Nonnegativity of cash along a whole transaction sequence with
nonnegative prices. -/
theorem runTransactions_cash_nonneg (os : List Trade) (p : Portfolio)
    (hc : 0 ≤ p.cash) (hp : ∀ o ∈ os, 0 ≤ o.price) :
    0 ≤ (runTransactions p os).cash := by
  induction os generalizing p with
  | nil => simpa [runTransactions] using hc
  | cons o os ih =>
    have h1 : 0 ≤ (p.execute_transaction o.ticker o.quantity o.price o.tdate).cash :=
      execute_transaction_cash_nonneg p o.ticker o.quantity o.price o.tdate
        (hp o (List.mem_cons_self o os)) hc
    have h2 : ∀ o' ∈ os, 0 ≤ o'.price := fun o' ho' => hp o' (List.mem_cons_of_mem o ho')
    simpa [runTransactions] using ih _ h1 h2

/-- Nonnegativity of cash through one engine order-execution loop over a row
holding only nonnegative (valid) prices. -/
theorem executeSignals_cash_nonneg (dt : Date) (cols : List String) (row : Row)
    (sig : List (String × Int)) (p : Portfolio) (hc : 0 ≤ p.cash)
    (hrow : ∀ e ∈ row, ∀ v, e.2 = some v → 0 ≤ (v : ℚ)) :
    0 ≤ (executeSignals p dt cols row sig).cash := by
  induction sig generalizing p with
  | nil => simpa [executeSignals] using hc
  | cons e sig ih =>
    have hstep : ∀ q : Portfolio, 0 ≤ q.cash →
        0 ≤ (if priceCol e.1 ∈ cols then
              match rowGet row (priceCol e.1) with
              | some price => q.execute_transaction e.1 e.2 price dt
              | none => q
             else q).cash := by
      intro q hq
      by_cases hmem : priceCol e.1 ∈ cols
      · cases hfind : rowGet row (priceCol e.1) with
        | none => simpa [hmem, hfind] using hq
        | some price =>
          have hpr : 0 ≤ price := by
            rcases Option.bind_eq_some.mp (by simpa [rowGet] using hfind) with ⟨a, ha, hav⟩
            exact hrow a (List.mem_of_find?_eq_some ha) price hav
          simpa [hmem, hfind] using
            execute_transaction_cash_nonneg q e.1 e.2 price dt hpr hq
      · simpa [hmem] using hq
    have h1 := hstep p hc
    have := ih _ h1
    simpa [executeSignals, List.foldl_cons] using this

/-- C3 (amended): with every executed price nonnegative, the ledger's cash is
nonnegative at every point of the run: after every prefix of the transaction
sequence, and through every order-execution loop of an engine day whose row
holds only nonnegative prices (the end-of-day valuation touches no state). -/
theorem cash_nonneg_invariant (p : Portfolio) (os pre suf : List Trade)
    (hsplit : os = pre ++ suf) (hc : 0 ≤ p.cash) (hp : ∀ o ∈ os, 0 ≤ o.price) :
    0 ≤ (runTransactions p pre).cash ∧
    (∀ (dt : Date) (cols : List String) (row : Row) (sig : List (String × Int)),
      (∀ e ∈ row, ∀ v, e.2 = some v → 0 ≤ (v : ℚ)) →
      0 ≤ (executeSignals (runTransactions p pre) dt cols row sig).cash) := by
  have hpre : 0 ≤ (runTransactions p pre).cash := by
    refine runTransactions_cash_nonneg pre p hc ?_
    intro o ho
    exact hp o (hsplit ▸ List.mem_append_left suf ho)
  exact ⟨hpre, fun dt cols row sig hrow =>
    executeSignals_cash_nonneg dt cols row sig _ hpre hrow⟩

/-- Trading days of the cash-negativity counterexample run. -/
def dC31 : Date := ⟨2024, 1, 5, 1⟩

/-- Second day of the counterexample run. -/
def dC32 : Date := ⟨2024, 1, 10, 2⟩

/-- Third day of the counterexample run. -/
def dC33 : Date := ⟨2024, 1, 15, 3⟩

/-- Fourth day of the counterexample run: ticker A carries a valid but
negative close price. -/
def dC34 : Date := ⟨2024, 1, 20, 3⟩

/-- History of the counterexample run: A is bought on the third day; on the
fourth day B wins the momentum ranking and A is liquidated at price −10. -/
def histC3 : History :=
  ⟨["Close_A", "Close_B"],
   [(dC31, [("Close_A", some 1), ("Close_B", some 1)]),
    (dC32, [("Close_A", some 1), ("Close_B", some 1)]),
    (dC33, [("Close_A", some 10), ("Close_B", some 100)]),
    (dC34, [("Close_A", some (-10)), ("Close_B", some 100)])]⟩

/-- Daily momentum rotation over A and B, used by the counterexample run. -/
def mcfgC3 : MomentumStrategy := ⟨["A", "B"], 1, "daily"⟩

/-- Counterexample to C3 as stated: a complete backtest run of the momentum
strategy from nonnegative initial cash 10 ends with cash −10 < 0, because the
fourth day's liquidation of A executes at the valid negative price −10 (the
engine checks prices only for NaN, not for sign). -/
theorem cash_negative_cex :
    (momentumRun mcfgC3 histC3 10).map (fun q => q.cash) = some (-10) ∧ ¬ (0 ≤ (-10 : ℚ)) := by
  constructor
  · simp [momentumRun, MomentumStrategy.generate_signals, isRebalanceDay, lookbackRows,
      computeMomentum, momentumLoop, tickerScore, argmaxFirst, argmaxGo, liquidationSignals,
      filterNonzero, dictInsert, dictGetD, dictErase, keyMem, rowGet, rowAt, seriesGet,
      optAdd, Portfolio.get_total_value, Portfolio.get_holdings_value, executeSignals,
      Portfolio.execute_transaction, Portfolio.record_transaction, mkPortfolio,
      Date.subMonths, Date.key, daysInMonth, filterMap_cons_eval,
      show priceCol "A" = "Close_A" from rfl, show priceCol "B" = "Close_B" from rfl,
      show ((1:ℚ)-1)/1 = 0 from by norm_num,
      show ((10:ℚ)-1)/1 = 9 from by norm_num,
      show ((100:ℚ)-1)/1 = 99 from by norm_num,
      show (0:ℚ) < 10 from by norm_num,
      show (0:ℚ) < 100 from by norm_num,
      show (9:ℚ) < 99 from by norm_num,
      show pyInt ((10:ℚ)/10) = 1 from by norm_num [pyInt],
      show pyInt (1:ℚ) = 1 from by norm_num [pyInt],
      show pyInt (-((10:ℚ)/100)) = 0 from by norm_num [pyInt],
      show pyInt ((-10:ℚ)/100) = 0 from by norm_num [pyInt],
      histC3, dC31, dC32, dC33, dC34, mcfgC3]
  · norm_num

/-- Witness for C3 (amended): a funded buy from cash 100 at price 10 keeps
cash nonnegative. -/
theorem cash_nonneg_invariant_witness :
    0 ≤ (runTransactions (mkPortfolio 100) [⟨"A", 2, 10, ⟨2024, 1, 2, 1⟩⟩]).cash :=
  (cash_nonneg_invariant (mkPortfolio 100) [⟨"A", 2, 10, ⟨2024, 1, 2, 1⟩⟩]
    [⟨"A", 2, 10, ⟨2024, 1, 2, 1⟩⟩] [] (by simp) (by norm_num [mkPortfolio])
    (by intro o ho; simp at ho; simp [ho])).1

/-- Appending one record adds its notional to `buySum` exactly when it is
tagged BUY. -/
theorem buySum_append_single (ts : List Transaction) (r : Transaction) :
    buySum (ts ++ [r]) = buySum ts + (if r.action = "BUY" then r.cost else 0) := by
  by_cases h : r.action = "BUY" <;>
    simp [buySum, List.filter_append, List.foldl_append, h]

/-- Appending one record adds its notional to `sellSum` exactly when it is
tagged SELL. -/
theorem sellSum_append_single (ts : List Transaction) (r : Transaction) :
    sellSum (ts ++ [r]) = sellSum ts + (if r.action = "SELL" then r.cost else 0) := by
  by_cases h : r.action = "SELL" <;>
    simp [sellSum, List.filter_append, List.foldl_append, h]

/-- The cash-ledger balance: cash equals initial cash plus recorded sell
notionals minus recorded buy notionals. -/
def conservation (p : Portfolio) : Prop :=
  p.cash = p.initial_cash + sellSum p.transactions - buySum p.transactions

/-- One `execute_transaction` call preserves the cash-ledger balance and the
recorded initial cash. -/
theorem execute_transaction_conservation (p : Portfolio) (t : String) (q : Int)
    (price : ℚ) (dt : Date) (h : conservation p) :
    conservation (p.execute_transaction t q price dt) ∧
    (p.execute_transaction t q price dt).initial_cash = p.initial_cash := by
  unfold Portfolio.execute_transaction
  by_cases hq : 0 < q
  · by_cases hcost : p.cash < (q : ℚ) * price
    · exact ⟨by simpa [hq, hcost] using h, by simp [hq, hcost]⟩
    · have habs : (|q| : ℚ) = (q : ℚ) := by
        have := abs_of_pos hq
        exact_mod_cast congrArg (fun z : Int => (z : ℚ)) this
      constructor
      · simp only [hq, if_pos, hcost, if_neg, not_false_iff]
        simp only [conservation, Portfolio.record_transaction] at h ⊢
        rw [buySum_append_single, sellSum_append_single]
        simp [habs]
        linarith
      · simp [hq, hcost, Portfolio.record_transaction]
  · by_cases hq' : q < 0
    · by_cases hh : dictGetD p.holdings t 0 < |q|
      · exact ⟨by simpa [hq, hq', hh] using h, by simp [hq, hq', hh]⟩
      · have habs : (|q| : ℚ) = -(q : ℚ) := by
          have := abs_of_neg hq'
          exact_mod_cast congrArg (fun z : Int => (z : ℚ)) this
        constructor
        · simp only [hq, if_neg, not_false_iff, hq', if_pos, hh]
          simp only [conservation, Portfolio.record_transaction] at h ⊢
          rw [buySum_append_single, sellSum_append_single]
          simp [habs]
          linarith
        · simp [hq, hq', hh, Portfolio.record_transaction]
    · exact ⟨by simpa [hq, hq'] using h, by simp [hq, hq']⟩

/-- C6 (amended): at any point of a run, cash alone satisfies the
conservation law `cash = initial_cash + Σ(sell notional) − Σ(buy notional)`
exactly, and the recorded initial cash never changes; the holdings term of
the claimed identity does not belong in it once prices move. -/
theorem cash_conservation (p : Portfolio) (os : List Trade) (h : conservation p) :
    conservation (runTransactions p os) ∧
    (runTransactions p os).initial_cash = p.initial_cash := by
  induction os generalizing p with
  | nil => exact ⟨by simpa [runTransactions] using h, by simp [runTransactions]⟩
  | cons o os ih =>
    have step := execute_transaction_conservation p o.ticker o.quantity o.price o.tdate h
    have tail := ih _ step.1
    refine ⟨by simpa [runTransactions] using tail.1, ?_⟩
    have : (runTransactions (p.execute_transaction o.ticker o.quantity o.price o.tdate) os).initial_cash
        = p.initial_cash := by rw [tail.2, step.2]
    simpa [runTransactions] using this

/-- Witness for C6 (amended): a fresh ledger with one executed buy of 1 share
at 100 from cash 100 still balances: 0 = 100 + 0 − 100. -/
theorem cash_conservation_witness :
    conservation (runTransactions (mkPortfolio 100) [⟨"A", 1, 100, ⟨2024, 1, 5, 1⟩⟩]) :=
  (cash_conservation (mkPortfolio 100) [⟨"A", 1, 100, ⟨2024, 1, 5, 1⟩⟩]
    (by simp [conservation, mkPortfolio, sellSum, buySum])).1

/-- Ledger used by the conservation counterexample: 1 share of A bought at
price 100 out of initial cash 100. -/
def portC6 : Portfolio :=
  Portfolio.execute_transaction (mkPortfolio 100) "A" 1 100 ⟨2024, 1, 5, 1⟩

/-- Counterexample to C6 as stated: the next day A is priced 200, so
`cash + holdings_value` is 200 while `initial_cash + Σsell − Σbuy` is 0 —
the claimed identity fails grossly (not a float-tolerance matter) as soon as
prices move between trade and valuation. -/
theorem conservation_with_holdings_cex :
    portC6.get_total_value ["Close_A"] [("Close_A", some 200)] = some 200 ∧
    portC6.initial_cash + sellSum portC6.transactions - buySum portC6.transactions = 0 ∧
    ¬ ((200 : ℚ) = 0) := by
  refine ⟨?_, ?_, by norm_num⟩
  · simp [portC6, Portfolio.get_total_value, Portfolio.get_holdings_value,
      Portfolio.execute_transaction, Portfolio.record_transaction, mkPortfolio,
      dictInsert, dictGetD, optAdd, rowGet,
      show priceCol "A" = "Close_A" from rfl,
      show ¬ ((100:ℚ) < 1 * 100) from by norm_num]
  · simp [portC6, Portfolio.execute_transaction, Portfolio.record_transaction, mkPortfolio,
      dictInsert, dictGetD, sellSum, buySum,
      show ¬ ((100:ℚ) < 1 * 100) from by norm_num]

/-- C9 (amended): construction of the momentum strategy raises exactly for a
non-positive lookback period or an unsupported rebalance frequency, checked in
that order; any other configuration — including an empty ticker list — is
accepted unchanged. -/
theorem momentum_config_validation (tickers : List String) (lb : Int) (freq : String) :
    (lb ≤ 0 → mkMomentumStrategy tickers lb freq =
      .error "Okres lookback musi byc dodatni.") ∧
    (¬ lb ≤ 0 → ¬ freq ∈ ["daily", "weekly", "monthly"] → mkMomentumStrategy tickers lb freq =
      .error "Czestotliwosc rebalansowania musi byc daily, weekly lub monthly.") ∧
    (¬ lb ≤ 0 → freq ∈ ["daily", "weekly", "monthly"] → mkMomentumStrategy tickers lb freq =
      .ok ⟨tickers, lb, freq⟩) := by
  refine ⟨?_, ?_, ?_⟩
  · intro h; simp [mkMomentumStrategy, h]
  · intro h1 h2; simp [mkMomentumStrategy, h1, h2]
  · intro h1 h2; simp [mkMomentumStrategy, h1, h2]

/-- Witness for C9 (amended): a zero lookback is rejected at construction. -/
theorem momentum_config_validation_witness :
    mkMomentumStrategy ["A"] 0 "monthly" = .error "Okres lookback musi byc dodatni." :=
  (momentum_config_validation ["A"] 0 "monthly").1 (by norm_num)

/-- Counterexample to C9 as stated: constructing with an empty ticker list
(and otherwise valid parameters) does not raise — the constructor performs no
emptiness check and returns a strategy over no tickers. -/
theorem momentum_empty_tickers_accepted_cex :
    mkMomentumStrategy [] 1 "monthly" = .ok ⟨[], 1, "monthly"⟩ := rfl

/-- C4: the momentum strategy returns a non-empty signal only on qualifying
rebalance days — daily: always; weekly: the current date is the earliest row
of the full history sharing its ISO week number; monthly: the earliest row
sharing its calendar month number (this is what `isRebalanceDay` computes) —
and every non-qualifying day returns the empty signal. -/
theorem momentum_rebalance_day_only (s : MomentumStrategy) (dt : Date) (h : History)
    (p : Portfolio) :
    (∀ sig, s.generate_signals dt h p = some sig → sig ≠ [] →
      isRebalanceDay s.rebalance_frequency dt h = true) ∧
    (isRebalanceDay s.rebalance_frequency dt h = false →
      s.generate_signals dt h p = some []) := by
  by_cases hr : isRebalanceDay s.rebalance_frequency dt h = true
  · exact ⟨fun _ _ _ => hr, fun hfalse => by rw [hr] at hfalse; cases hfalse⟩
  · have hfalse : isRebalanceDay s.rebalance_frequency dt h = false := by
      simpa using hr
    refine ⟨fun sig hsig hne => ?_, fun _ => by
      simp [MomentumStrategy.generate_signals, hfalse]⟩
    rw [MomentumStrategy.generate_signals] at hsig
    simp only [hfalse, Bool.false_eq_true, not_false_iff, if_pos] at hsig
    exact absurd (Option.some.inj hsig.symm) hne

/-- First history row of the week-gating example: the first trading day of
ISO week 2. -/
def dC4a : Date := ⟨2024, 1, 8, 2⟩

/-- Second history row of the week-gating example: a later trading day of the
same ISO week. -/
def dC4b : Date := ⟨2024, 1, 9, 2⟩

/-- Two-day single-week history used to witness the rebalance gating. -/
def histC4 : History :=
  ⟨["Close_A"], [(dC4a, [("Close_A", some 1)]), (dC4b, [("Close_A", some 1)])]⟩

/-- Witness for C4: with weekly rebalancing, the second trading day of a week
is not a rebalance day and the returned signal is empty. -/
theorem momentum_rebalance_day_only_witness :
    MomentumStrategy.generate_signals ⟨["A"], 1, "weekly"⟩ dC4b histC4 (mkPortfolio 100)
      = some [] :=
  (momentum_rebalance_day_only ⟨["A"], 1, "weekly"⟩ dC4b histC4 (mkPortfolio 100)).2 (by rfl)

/-- First trading day of month 1 in the 3-month DCA scenario history. -/
def dS1a : Date := ⟨2024, 1, 2, 1⟩

/-- Second trading day of month 1 in the DCA scenario history. -/
def dS1b : Date := ⟨2024, 1, 9, 2⟩

/-- First trading day of month 2 in the DCA scenario history. -/
def dS2a : Date := ⟨2024, 2, 1, 5⟩

/-- Second trading day of month 2 in the DCA scenario history. -/
def dS2b : Date := ⟨2024, 2, 8, 6⟩

/-- First trading day of month 3 in the DCA scenario history. -/
def dS3a : Date := ⟨2024, 3, 1, 9⟩

/-- Second trading day of month 3 in the DCA scenario history. -/
def dS3b : Date := ⟨2024, 3, 8, 10⟩

/-- Three months of trading days with Y at the constant price 50. -/
def histC7s : History :=
  ⟨["Close_Y"],
   [(dS1a, [("Close_Y", some 50)]), (dS1b, [("Close_Y", some 50)]),
    (dS2a, [("Close_Y", some 50)]), (dS2b, [("Close_Y", some 50)]),
    (dS3a, [("Close_Y", some 50)]), (dS3b, [("Close_Y", some 50)])]⟩

/-- C7 (amended): the monthly-investment strategy invests exactly on the
earliest history row bearing a not-yet-invested calendar month number, buying
`int(amount / price)` shares when the price is valid, positive and the floored
count is positive, and consuming the month; an invalid price or a zero count
leaves the state unchanged without consuming the month, but no later day of
that month invests either, because only the month's first trading day passes
the rebalance test; over 3 months at constant price 50 with amount 500 the
engine records exactly 3 BUY transactions of quantity 10, one per month. -/
theorem dca_spec (ticker : String) (amount : ℚ) (last : Int) (dt : Date) (h : History) :
    ((dt.m : Int) = last →
      MonthlyInvestmentStrategy.generate_signals ticker amount last dt h = ([], last)) ∧
    (∀ r0 rest, h.rows.filter (fun r => decide (r.1.m = dt.m)) = r0 :: rest → dt ≠ r0.1 →
      MonthlyInvestmentStrategy.generate_signals ticker amount last dt h = ([], last)) ∧
    (∀ r0 rest row pr, (dt.m : Int) ≠ last →
      h.rows.filter (fun r => decide (r.1.m = dt.m)) = r0 :: rest → dt = r0.1 →
      priceCol ticker ∈ h.cols → rowAt h dt = some row →
      rowGet row (priceCol ticker) = some pr → 0 < pr → 0 < pyInt (amount / pr) →
      MonthlyInvestmentStrategy.generate_signals ticker amount last dt h =
        ([(ticker, pyInt (amount / pr))], (dt.m : Int))) ∧
    (∀ r0 rest row, (dt.m : Int) ≠ last →
      h.rows.filter (fun r => decide (r.1.m = dt.m)) = r0 :: rest → dt = r0.1 →
      priceCol ticker ∈ h.cols → rowAt h dt = some row →
      rowGet row (priceCol ticker) = none →
      MonthlyInvestmentStrategy.generate_signals ticker amount last dt h = ([], last)) ∧
    (∀ r0 rest row pr, (dt.m : Int) ≠ last →
      h.rows.filter (fun r => decide (r.1.m = dt.m)) = r0 :: rest → dt = r0.1 →
      priceCol ticker ∈ h.cols → rowAt h dt = some row →
      rowGet row (priceCol ticker) = some pr → ¬ (0 < pr ∧ 0 < pyInt (amount / pr)) →
      MonthlyInvestmentStrategy.generate_signals ticker amount last dt h = ([], last)) ∧
    ((dcaRun "Y" 500 histC7s 1500).1.transactions =
      [⟨dS1a, "Y", "BUY", 10, 50, 500⟩, ⟨dS2a, "Y", "BUY", 10, 50, 500⟩,
       ⟨dS3a, "Y", "BUY", 10, 50, 500⟩] ∧
     (dcaRun "Y" 500 histC7s 1500).1.cash = 0) := by
  refine ⟨?_, ?_, ?_, ?_, ?_, ?_⟩
  · intro hlast
    simp [MonthlyInvestmentStrategy.generate_signals, hlast]
  · intro r0 rest hfilter hne
    by_cases hlast : (dt.m : Int) = last
    · simp [MonthlyInvestmentStrategy.generate_signals, hlast]
    · simp [MonthlyInvestmentStrategy.generate_signals, hlast, hfilter, hne]
  · intro r0 rest row pr hlast hfilter hdt hcol hrow hpr hpos hq
    subst hdt
    simp [MonthlyInvestmentStrategy.generate_signals, hlast, hfilter, hcol, hrow, hpr,
      hpos, hq]
  · intro r0 rest row hlast hfilter hdt hcol hrow hpr
    subst hdt
    simp [MonthlyInvestmentStrategy.generate_signals, hlast, hfilter, hcol, hrow, hpr]
  · intro r0 rest row pr hlast hfilter hdt hcol hrow hpr hneg
    subst hdt
    by_cases hpos : 0 < pr
    · have hq : ¬ 0 < pyInt (amount / pr) := fun hq => hneg ⟨hpos, hq⟩
      simp [MonthlyInvestmentStrategy.generate_signals, hlast, hfilter, hcol, hrow, hpr,
        hpos, hq]
    · simp [MonthlyInvestmentStrategy.generate_signals, hlast, hfilter, hcol, hrow, hpr,
        hpos]
  · constructor <;>
      simp [dcaRun, MonthlyInvestmentStrategy.generate_signals, executeSignals,
        Portfolio.execute_transaction, Portfolio.record_transaction, mkPortfolio,
        dictInsert, dictGetD, rowGet, rowAt,
        show priceCol "Y" = "Close_Y" from rfl,
        show pyInt ((500:ℚ)/50) = 10 from by norm_num [pyInt],
        show |(10:Int)| = 10 from by norm_num,
        show (10:ℚ) * 50 = 500 from by norm_num,
        show ¬ ((1500:ℚ) < 500) from by norm_num,
        show ¬ ((1000:ℚ) < 500) from by norm_num,
        show ¬ ((500:ℚ) < 500) from by norm_num,
        show (1500:ℚ) - 500 = 1000 from by norm_num,
        show (1000:ℚ) - 500 = 500 from by norm_num,
        show (500:ℚ) - 500 = 0 from by norm_num,
        histC7s, dS1a, dS1b, dS2a, dS2b, dS3a, dS3b]

/-- Witness for C7 (amended): on the first trading day of month 1 with a
fresh state, the strategy buys `int(500/50) = 10` shares of Y and consumes
the month. -/
theorem dca_spec_witness :
    MonthlyInvestmentStrategy.generate_signals "Y" 500 (-1) dS1a histC7s
      = ([("Y", pyInt ((500:ℚ)/50))], (dS1a.m : Int)) :=
  (dca_spec "Y" 500 (-1) dS1a histC7s).2.2.1 (dS1a, [("Close_Y", some 50)])
    [(dS1b, [("Close_Y", some 50)])] [("Close_Y", some 50)] 50 (by decide) (by rfl) rfl
    (by simp [histC7s, priceCol]) (by rfl) (by rfl) (by norm_num) (by norm_num [pyInt])

/-- First trading day of the month in the skipped-month counterexample: the
price of Y is NaN. -/
def dC7a : Date := ⟨2024, 1, 2, 1⟩

/-- A later trading day of the same month, with a valid positive price. -/
def dC7b : Date := ⟨2024, 1, 3, 1⟩

/-- History for the skipped-month counterexample. -/
def histC7n : History :=
  ⟨["Close_Y"], [(dC7a, [("Close_Y", none)]), (dC7b, [("Close_Y", some 50)])]⟩

/-- Counterexample to C7 as stated: after the month's first trading day is
skipped over a NaN price (state still unconsumed), a later day of the same
month with a valid positive price and a positive floored share count still
returns no signal — the claim's "a later day of the same month may still
invest" never happens, since only the month's earliest history row passes the
first-trading-day test. -/
theorem dca_later_day_cex :
    MonthlyInvestmentStrategy.generate_signals "Y" 500 (-1) dC7a histC7n = ([], -1) ∧
    MonthlyInvestmentStrategy.generate_signals "Y" 500 (-1) dC7b histC7n = ([], -1) ∧
    rowGet [("Close_Y", some 50)] (priceCol "Y") = some 50 ∧ (0:ℚ) < 50 ∧
    0 < pyInt ((500:ℚ)/50) ∧ (dC7b.m : Int) ≠ -1 ∧ dC7b.m = dC7a.m := by
  refine ⟨by rfl, by rfl, by rfl, by norm_num, by norm_num [pyInt], by decide, by rfl⟩

/-- Every liquidation entry's key differs from the winner. -/
theorem liquidation_key_ne (p : Portfolio) (w : String) :
    ∀ e ∈ liquidationSignals p w, e.1 ≠ w := by
  intro e he
  rcases List.mem_filterMap.mp he with ⟨a, _, ha⟩
  by_cases h : a.1 = w
  · simp [h] at ha
  · simp only [h, if_neg, not_false_iff] at ha
    cases ha
    simpa using h

/-- With positive holdings, every liquidation entry is a strict sell. -/
theorem liquidation_neg (p : Portfolio) (w : String)
    (hpos : ∀ e ∈ p.holdings, 0 < e.2) :
    ∀ e ∈ liquidationSignals p w, e.2 < 0 := by
  intro e he
  rcases List.mem_filterMap.mp he with ⟨a, hmem, ha⟩
  by_cases h : a.1 = w
  · simp [h] at ha
  · simp only [h, if_neg, not_false_iff] at ha
    cases ha
    simpa using hpos a hmem

/-- Each held ticker other than the winner produces its full-sell entry. -/
theorem liquidation_mem_intro (p : Portfolio) (w : String) :
    ∀ a ∈ p.holdings, a.1 ≠ w → (a.1, -a.2) ∈ liquidationSignals p w := by
  intro a ha hne
  exact List.mem_filterMap.mpr ⟨a, ha, by simp [hne]⟩

/-- With positive holdings the zero filter keeps every liquidation entry. -/
theorem filterNonzero_liquidation (p : Portfolio) (w : String)
    (hpos : ∀ e ∈ p.holdings, 0 < e.2) :
    filterNonzero (liquidationSignals p w) = liquidationSignals p w := by
  refine List.filter_eq_self.mpr ?_
  intro e he
  have := liquidation_neg p w hpos e he
  simp only [decide_eq_true_eq]
  omega

/-- Inserting a fresh key into a dict appends the binding at the end. -/
theorem dictInsert_eq_append {α : Type} (l : List (String × α)) (k : String) (v : α)
    (hk : ∀ e ∈ l, e.1 ≠ k) : dictInsert l k v = l ++ [(k, v)] := by
  induction l with
  | nil => rfl
  | cons e rest ih =>
    have hne : e.1 ≠ k := hk e (List.mem_cons_self e rest)
    simp only [dictInsert, hne, if_neg, not_false_iff, List.cons_append]
    exact congrArg (e :: ·) (ih fun x hx => hk x (List.mem_cons_of_mem e hx))

/-- A signal lookup skips a block whose keys all differ from the ticker. -/
theorem sigGet_append_of_ne (l1 l2 : List (String × Int)) (k : String)
    (hk : ∀ e ∈ l1, e.1 ≠ k) : sigGet (l1 ++ l2) k = sigGet l2 k := by
  induction l1 with
  | nil => rfl
  | cons e rest ih =>
    have hne : e.1 ≠ k := hk e (List.mem_cons_self e rest)
    simp only [sigGet, List.cons_append, List.find?]
    simp only [hne, decide_eq_true_eq, decide_eq_false_iff_not, not_false_iff]
    have := ih fun x hx => hk x (List.mem_cons_of_mem e hx)
    simpa [sigGet, hne] using this

/-- A signal has no entry for a ticker none of its keys match. -/
theorem sigGet_eq_none_of_ne (l : List (String × Int)) (k : String)
    (hk : ∀ e ∈ l, e.1 ≠ k) : sigGet l k = none := by
  have : List.find? (fun e => decide (e.1 = k)) l = none :=
    List.find?_eq_none.mpr (by intro x hx; simpa using hk x hx)
  simp [sigGet, this]

/-- Shape of a momentum rebalance signal once a winner is selected and the
day's row is present: the dict of liquidation sells, the optional winner leg
guarded by the price check, and the final zero filter. -/
theorem generate_signals_winner_shape (s : MomentumStrategy) (dt : Date) (h : History)
    (p : Portfolio) (w : String × ℚ) (row : Row)
    (hr : isRebalanceDay s.rebalance_frequency dt h = true)
    (hlb : ¬ lookbackRows h dt s.lookback_months = [])
    (hm : ¬ computeMomentum h dt s.lookback_months s.tickers = [])
    (hw : argmaxFirst (computeMomentum h dt s.lookback_months s.tickers) = some w)
    (hrow : rowAt h dt = some row) :
    s.generate_signals dt h p =
      (match seriesGet h.cols row (priceCol w.1) with
       | some (some v) =>
         if 0 < v then
           match p.get_total_value h.cols row with
           | some tv =>
             some (filterNonzero (dictInsert (liquidationSignals p w.1) w.1
               (pyInt (tv / v) - dictGetD p.holdings w.1 0)))
           | none => none
         else some (filterNonzero (liquidationSignals p w.1))
       | _ => some (filterNonzero (liquidationSignals p w.1))) := by
  simp [MomentumStrategy.generate_signals, hr, hlb, hm, hw, hrow]

/-- C1 (amended): on a momentum rebalance day whose winner has a valid
positive price and whose pre-trade total is not NaN-poisoned, the winner's
signal entry is Python's `int()` truncation toward zero of
`total_portfolio_value / winner_price` minus the held winner quantity
(this equals the claimed floor whenever the quotient is nonnegative), and the
entry is omitted exactly when that difference is zero. -/
theorem momentum_buy_sizing_trunc (s : MomentumStrategy) (dt : Date) (h : History)
    (p : Portfolio) (w : String × ℚ) (row : Row) (v tv : ℚ)
    (hr : isRebalanceDay s.rebalance_frequency dt h = true)
    (hlb : ¬ lookbackRows h dt s.lookback_months = [])
    (hm : ¬ computeMomentum h dt s.lookback_months s.tickers = [])
    (hw : argmaxFirst (computeMomentum h dt s.lookback_months s.tickers) = some w)
    (hrow : rowAt h dt = some row)
    (hpr : seriesGet h.cols row (priceCol w.1) = some (some v))
    (hv : 0 < v)
    (htv : p.get_total_value h.cols row = some tv) :
    ∃ sig, s.generate_signals dt h p = some sig ∧
      sigGet sig w.1 =
        (if pyInt (tv / v) - dictGetD p.holdings w.1 0 = 0 then none
         else some (pyInt (tv / v) - dictGetD p.holdings w.1 0)) := by
  have hshape := generate_signals_winner_shape s dt h p w row hr hlb hm hw hrow
  rw [hpr] at hshape
  simp only [hv, if_pos, htv] at hshape
  set d := pyInt (tv / v) - dictGetD p.holdings w.1 0 with hd
  have hkeys : ∀ e ∈ liquidationSignals p w.1, e.1 ≠ w.1 := liquidation_key_ne p w.1
  have hins : dictInsert (liquidationSignals p w.1) w.1 d
      = liquidationSignals p w.1 ++ [(w.1, d)] :=
    dictInsert_eq_append _ _ _ hkeys
  refine ⟨_, hshape, ?_⟩
  rw [hins]
  have hsplit : filterNonzero (liquidationSignals p w.1 ++ [(w.1, d)])
      = filterNonzero (liquidationSignals p w.1) ++ filterNonzero [(w.1, d)] := by
    simp [filterNonzero, List.filter_append]
  rw [hsplit]
  have hkeys' : ∀ e ∈ filterNonzero (liquidationSignals p w.1), e.1 ≠ w.1 :=
    fun e he => hkeys e (List.mem_of_mem_filter he)
  rw [sigGet_append_of_ne _ _ _ hkeys']
  by_cases hz : d = 0
  · simp [filterNonzero, sigGet, hz]
  · simp [filterNonzero, sigGet, hz]

/-- Lookback days of the C1 witness history. -/
def dW1 : Date := ⟨2024, 1, 10, 2⟩

/-- Second lookback day of the C1 witness history. -/
def dW2 : Date := ⟨2024, 1, 20, 3⟩

/-- Rebalance day of the C1 witness history. -/
def dW3 : Date := ⟨2024, 2, 1, 5⟩

/-- Single-ticker history with B doubling over the lookback window. -/
def histC1w : History :=
  ⟨["Close_B"],
   [(dW1, [("Close_B", some 1)]), (dW2, [("Close_B", some 2)]),
    (dW3, [("Close_B", some 2)])]⟩

/-- Witness for C1 (amended): an all-cash ledger of 100 buys
`int(100 / 2) = 50` shares of the winner B. -/
theorem momentum_buy_sizing_trunc_witness :
    ∃ sig, MomentumStrategy.generate_signals ⟨["B"], 1, "daily"⟩ dW3 histC1w (mkPortfolio 100)
        = some sig ∧
      sigGet sig "B" = some (pyInt ((100:ℚ) / 2) - dictGetD (mkPortfolio 100).holdings "B" 0) := by
  obtain ⟨sig, hsig, hget⟩ :=
    momentum_buy_sizing_trunc ⟨["B"], 1, "daily"⟩ dW3 histC1w (mkPortfolio 100)
      ("B", 1) [("Close_B", some 2)] 2 100
      (by rfl)
      (by decide)
      (by decide)
      (by simp [computeMomentum, momentumLoop, tickerScore, argmaxFirst, argmaxGo,
        lookbackRows, Date.subMonths, Date.key, daysInMonth, dictInsert, rowGet,
        filterMap_cons_eval, show priceCol "B" = "Close_B" from rfl,
        show ((2:ℚ)-1)/1 = 1 from by norm_num, histC1w, dW1, dW2, dW3])
      (by rfl)
      (by rfl)
      (by norm_num)
      (by simp [Portfolio.get_total_value, Portfolio.get_holdings_value, mkPortfolio, optAdd])
  refine ⟨sig, hsig, ?_⟩
  rw [hget]
  have : pyInt ((100:ℚ) / 2) - dictGetD (mkPortfolio 100).holdings "B" 0 ≠ 0 := by
    norm_num [pyInt, mkPortfolio, dictGetD]
  simp [this]

/-- Date of the position-opening buy in the C1 counterexample. -/
def dX0 : Date := ⟨2024, 1, 2, 1⟩

/-- First lookback day of the C1 counterexample history. -/
def dX1 : Date := ⟨2024, 1, 5, 1⟩

/-- Second lookback day of the C1 counterexample history. -/
def dX2 : Date := ⟨2024, 1, 10, 2⟩

/-- Rebalance day of the C1 counterexample history: the held ticker A is
priced at the valid negative value −10. -/
def dX3 : Date := ⟨2024, 1, 20, 3⟩

/-- History of the C1 counterexample: the strategy trades B only, the ledger
holds A whose current price is −10. -/
def histC1x : History :=
  ⟨["Close_A", "Close_B"],
   [(dX1, [("Close_A", some 1), ("Close_B", some 1)]),
    (dX2, [("Close_A", some 1), ("Close_B", some 2)]),
    (dX3, [("Close_A", some (-10)), ("Close_B", some 2)])]⟩

/-- Ledger of the C1 counterexample, reached by buying 1 share of A at 10
out of initial cash 15: cash 5, holdings {A: 1}. -/
def portC1x : Portfolio :=
  Portfolio.execute_transaction (mkPortfolio 15) "A" 1 10 dX0

/-- Counterexample to C1 as stated: with pre-trade total −5 (cash 5 plus A
valued at −10) and winner price 2, the code emits the truncated entry
`int(-5/2) = −2` for B, while the claimed `floor(-5/2) − 0 = −3`. -/
theorem momentum_floor_sizing_cex :
    MomentumStrategy.generate_signals ⟨["B"], 1, "daily"⟩ dX3 histC1x portC1x
      = some [("A", -1), ("B", -2)] ∧
    portC1x.get_total_value histC1x.cols [("Close_A", some (-10)), ("Close_B", some 2)]
      = some (-5) ∧
    seriesGet histC1x.cols [("Close_A", some (-10)), ("Close_B", some 2)] (priceCol "B")
      = some (some 2) ∧
    (0:ℚ) < 2 ∧
    ⌊(-5:ℚ) / 2⌋ - dictGetD portC1x.holdings "B" 0 = -3 ∧
    ¬ ((-2 : Int) = -3) := by
  refine ⟨?_, ?_, by rfl, by norm_num, ?_, by decide⟩
  · simp [MomentumStrategy.generate_signals, isRebalanceDay, lookbackRows,
      computeMomentum, momentumLoop, tickerScore, argmaxFirst, argmaxGo, liquidationSignals,
      filterNonzero, dictInsert, dictGetD, dictErase, keyMem, rowGet, rowAt, seriesGet,
      optAdd, Portfolio.get_total_value, Portfolio.get_holdings_value,
      Portfolio.execute_transaction, Portfolio.record_transaction, mkPortfolio, portC1x,
      Date.subMonths, Date.key, daysInMonth, filterMap_cons_eval,
      show priceCol "A" = "Close_A" from rfl, show priceCol "B" = "Close_B" from rfl,
      show ((2:ℚ)-1)/1 = 1 from by norm_num,
      show (0:ℚ) < 2 from by norm_num,
      show ¬ ((15:ℚ) < 1 * 10) from by norm_num,
      show ¬ ((15:ℚ) < 10) from by norm_num,
      show (15:ℚ) - 1 * 10 = 5 from by norm_num,
      show (15:ℚ) - 10 = 5 from by norm_num,
      show (-10:ℚ) + 5 = -5 from by norm_num,
      show pyInt ((-5:ℚ)/2) = -2 from by norm_num [pyInt],
      show pyInt (-((5:ℚ)/2)) = -2 from by norm_num [pyInt],
      histC1x, dX0, dX1, dX2, dX3]
  · simp [Portfolio.get_total_value, Portfolio.get_holdings_value, optAdd, rowGet,
      Portfolio.execute_transaction, Portfolio.record_transaction, mkPortfolio, portC1x,
      dictInsert, dictGetD,
      show priceCol "A" = "Close_A" from rfl,
      show ¬ ((15:ℚ) < 1 * 10) from by norm_num,
      show ¬ ((15:ℚ) < 10) from by norm_num,
      show (15:ℚ) - 1 * 10 = 5 from by norm_num,
      show (15:ℚ) - 10 = 5 from by norm_num,
      show (-10:ℚ) + 5 = -5 from by norm_num,
      histC1x]
  · have hB : dictGetD portC1x.holdings "B" 0 = 0 := by
      simp [portC1x, Portfolio.execute_transaction, Portfolio.record_transaction,
        mkPortfolio, dictInsert, dictGetD,
        show ¬ ((15:ℚ) < 1 * 10) from by norm_num,
        show ¬ ((15:ℚ) < 10) from by norm_num]
    rw [hB]
    norm_num

/-- C8: on a momentum rebalance day whose selected winner has a missing, NaN
or non-positive price, the returned signal is exactly the liquidation block:
it has no entry for the winner, and it contains the full-sell entry
`(t, -quantity)` for every currently held ticker `t` other than the winner. -/
theorem momentum_invalid_winner_price (s : MomentumStrategy) (dt : Date) (h : History)
    (p : Portfolio) (w : String × ℚ) (row : Row)
    (hr : isRebalanceDay s.rebalance_frequency dt h = true)
    (hlb : ¬ lookbackRows h dt s.lookback_months = [])
    (hm : ¬ computeMomentum h dt s.lookback_months s.tickers = [])
    (hw : argmaxFirst (computeMomentum h dt s.lookback_months s.tickers) = some w)
    (hrow : rowAt h dt = some row)
    (hpos : ∀ e ∈ p.holdings, 0 < e.2)
    (hbad : seriesGet h.cols row (priceCol w.1) = none ∨
            seriesGet h.cols row (priceCol w.1) = some none ∨
            ∃ v, seriesGet h.cols row (priceCol w.1) = some (some v) ∧ ¬ 0 < v) :
    s.generate_signals dt h p = some (liquidationSignals p w.1) ∧
    sigGet (liquidationSignals p w.1) w.1 = none ∧
    (∀ a ∈ p.holdings, a.1 ≠ w.1 → (a.1, -a.2) ∈ liquidationSignals p w.1) := by
  have hshape := generate_signals_winner_shape s dt h p w row hr hlb hm hw hrow
  have hfix : s.generate_signals dt h p = some (filterNonzero (liquidationSignals p w.1)) := by
    rcases hbad with hnone | hnan | ⟨v, hv, hvneg⟩
    · rw [hnone] at hshape; exact hshape
    · rw [hnan] at hshape; exact hshape
    · rw [hv] at hshape; simpa [hvneg] using hshape
  rw [filterNonzero_liquidation p w.1 hpos] at hfix
  exact ⟨hfix, sigGet_eq_none_of_ne _ _ (liquidation_key_ne p w.1),
    liquidation_mem_intro p w.1⟩

/-- First lookback day of the C8 witness history. -/
def dN1 : Date := ⟨2024, 1, 10, 2⟩

/-- Second lookback day of the C8 witness history. -/
def dN2 : Date := ⟨2024, 1, 20, 3⟩

/-- Rebalance day of the C8 witness history: the winner B's price is NaN. -/
def dN3 : Date := ⟨2024, 2, 1, 5⟩

/-- History of the C8 witness: B wins the ranking but its rebalance-day price
is NaN, while the held ticker A stays priced. -/
def histC8 : History :=
  ⟨["Close_A", "Close_B"],
   [(dN1, [("Close_A", some 1), ("Close_B", some 1)]),
    (dN2, [("Close_A", some 1), ("Close_B", some 2)]),
    (dN3, [("Close_A", some 1), ("Close_B", none)])]⟩

/-- Ledger of the C8 witness: 1 share of A, cash 0, from initial cash 10. -/
def portC8 : Portfolio :=
  Portfolio.execute_transaction (mkPortfolio 10) "A" 1 10 dX0

/-- Witness for C8: with winner B priced NaN on the rebalance day, the signal
is exactly the full liquidation of A and carries no entry for B. -/
theorem momentum_invalid_winner_price_witness :
    MomentumStrategy.generate_signals ⟨["B"], 1, "daily"⟩ dN3 histC8 portC8
      = some (liquidationSignals portC8 "B") ∧
    sigGet (liquidationSignals portC8 "B") "B" = none := by
  have hport : portC8.holdings = [("A", 1)] := by
    simp [portC8, Portfolio.execute_transaction, Portfolio.record_transaction, mkPortfolio,
      dictInsert, dictGetD,
      show ¬ ((10:ℚ) < 1 * 10) from by norm_num,
      show ¬ ((10:ℚ) < 10) from by norm_num]
  have h := momentum_invalid_winner_price ⟨["B"], 1, "daily"⟩ dN3 histC8 portC8
    ("B", 1) [("Close_A", some 1), ("Close_B", none)]
    (by rfl)
    (by decide)
    (by decide)
    (by simp [computeMomentum, momentumLoop, tickerScore, argmaxFirst, argmaxGo,
      lookbackRows, Date.subMonths, Date.key, daysInMonth, dictInsert, rowGet,
      filterMap_cons_eval, show priceCol "B" = "Close_B" from rfl,
      show ((2:ℚ)-1)/1 = 1 from by norm_num, histC8, dN1, dN2, dN3])
    (by rfl)
    (by rw [hport]; intro e he; simp at he; simp [he])
    (by right; left; rfl)
  exact ⟨h.1, h.2.1⟩

/-- The engine's order-execution loop processes an appended block after the
block before it, in iteration order. -/
theorem executeSignals_append (q : Portfolio) (dd : Date) (cols : List String) (row : Row)
    (l1 l2 : List (String × Int)) :
    executeSignals q dd cols row (l1 ++ l2) =
      executeSignals (executeSignals q dd cols row l1) dd cols row l2 := by
  simp [executeSignals, List.foldl_append]

/-- C10: every signal the momentum strategy returns splits as its liquidation
sells (all strictly negative, none keyed by the winner) followed by at most
one winner leg, and the engine's order loop — a left fold in the signal's
iteration order — therefore executes all liquidation sells against the ledger
before the winner's leg. -/
theorem momentum_sells_before_buy (s : MomentumStrategy) (dt : Date) (h : History)
    (p : Portfolio) (sig : List (String × Int))
    (hpos : ∀ e ∈ p.holdings, 0 < e.2)
    (hsig : s.generate_signals dt h p = some sig) :
    ∃ sells rest, sig = sells ++ rest ∧
      (∀ e ∈ sells, e.2 < 0) ∧
      (rest = [] ∨ ∃ w d, rest = [(w, d)] ∧ ∀ e ∈ sells, e.1 ≠ w) ∧
      (∀ (q : Portfolio) (dd : Date) (cols : List String) (row : Row),
        executeSignals q dd cols row sig =
          executeSignals (executeSignals q dd cols row sells) dd cols row rest) := by
  by_cases hr : isRebalanceDay s.rebalance_frequency dt h = true
  case neg =>
    have hempty : sig = [] := by
      rw [MomentumStrategy.generate_signals] at hsig
      simp only [hr, not_false_iff, if_pos] at hsig
      exact (Option.some.inj hsig).symm
    exact ⟨[], [], by simp [hempty], by simp, Or.inl rfl, fun q dd cols row => by
      simp [hempty, executeSignals]⟩
  case pos =>
  by_cases hlb : lookbackRows h dt s.lookback_months = []
  case pos =>
    have hempty : sig = [] := by
      rw [MomentumStrategy.generate_signals] at hsig
      simp only [hr, not_true, if_neg, hlb, if_pos] at hsig
      simp at hsig
      exact hsig
    exact ⟨[], [], by simp [hempty], by simp, Or.inl rfl, fun q dd cols row => by
      simp [hempty, executeSignals]⟩
  case neg =>
  by_cases hm : computeMomentum h dt s.lookback_months s.tickers = []
  case pos =>
    have hempty : sig = [] := by
      rw [MomentumStrategy.generate_signals] at hsig
      simp only [hr, not_true, if_neg, hlb, hm, if_pos] at hsig
      simp at hsig
      exact hsig
    exact ⟨[], [], by simp [hempty], by simp, Or.inl rfl, fun q dd cols row => by
      simp [hempty, executeSignals]⟩
  case neg =>
  obtain ⟨w, hw⟩ : ∃ w, argmaxFirst (computeMomentum h dt s.lookback_months s.tickers) = some w := by
    cases hmm : computeMomentum h dt s.lookback_months s.tickers with
    | nil => exact absurd hmm hm
    | cons e rest => exact ⟨argmaxGo e.1 e.2 rest, by simp [argmaxFirst, hmm]⟩
  cases hrow : rowAt h dt with
  | none =>
    rw [MomentumStrategy.generate_signals] at hsig
    simp [hr, hlb, hm, hw, hrow] at hsig
  | some row =>
  have hshape := generate_signals_winner_shape s dt h p w row hr hlb hm hw hrow
  have hliq : ∀ e ∈ liquidationSignals p w.1, e.1 ≠ w.1 := liquidation_key_ne p w.1
  have hfneq : filterNonzero (liquidationSignals p w.1) = liquidationSignals p w.1 :=
    filterNonzero_liquidation p w.1 hpos
  have base : sig = liquidationSignals p w.1 →
      ∃ sells rest, sig = sells ++ rest ∧
        (∀ e ∈ sells, e.2 < 0) ∧
        (rest = [] ∨ ∃ w' d, rest = [(w', d)] ∧ ∀ e ∈ sells, e.1 ≠ w') ∧
        (∀ (q : Portfolio) (dd : Date) (cols : List String) (row' : Row),
          executeSignals q dd cols row' sig =
            executeSignals (executeSignals q dd cols row' sells) dd cols row' rest) := by
    intro hb
    exact ⟨liquidationSignals p w.1, [], by simp [hb], liquidation_neg p w.1 hpos,
      Or.inl rfl, fun q dd cols row' => by simp [hb, executeSignals]⟩
  rcases hsg : seriesGet h.cols row (priceCol w.1) with _ | o
  · rw [hsg] at hshape
    rw [hshape] at hsig
    exact base (by rw [← hfneq]; exact (Option.some.inj hsig).symm)
  · cases o with
    | none =>
      rw [hsg] at hshape
      rw [hshape] at hsig
      exact base (by rw [← hfneq]; exact (Option.some.inj hsig).symm)
    | some v =>
      rw [hsg] at hshape
      by_cases hv : 0 < v
      · simp only [hv, if_pos] at hshape
        cases htv : p.get_total_value h.cols row with
        | none => rw [htv] at hshape; rw [hshape] at hsig; cases hsig
        | some tv =>
          rw [htv] at hshape
          rw [hshape] at hsig
          set d := pyInt (tv / v) - dictGetD p.holdings w.1 0 with hd
          have hins : dictInsert (liquidationSignals p w.1) w.1 d
              = liquidationSignals p w.1 ++ [(w.1, d)] :=
            dictInsert_eq_append _ _ _ hliq
          have hsigeq : sig = liquidationSignals p w.1 ++ filterNonzero [(w.1, d)] := by
            have := (Option.some.inj hsig).symm
            rw [this, hins]
            simp only [filterNonzero, List.filter_append]
            rw [← filterNonzero, ← filterNonzero, hfneq]
          refine ⟨liquidationSignals p w.1, filterNonzero [(w.1, d)], hsigeq,
            liquidation_neg p w.1 hpos, ?_, fun q dd cols row' => by
              rw [hsigeq, executeSignals_append]⟩
          by_cases hz : d = 0
          · left; simp [filterNonzero, hz]
          · right; exact ⟨w.1, d, by simp [filterNonzero, hz], hliq⟩
      · simp only [hv, if_neg, not_false_iff] at hshape
        rw [hshape] at hsig
        exact base (by rw [← hfneq]; exact (Option.some.inj hsig).symm)

/-- First lookback day of the C10 witness history. -/
def dE1 : Date := ⟨2024, 1, 10, 2⟩

/-- Second lookback day of the C10 witness history. -/
def dE2 : Date := ⟨2024, 1, 20, 3⟩

/-- Rebalance day of the C10 witness history. -/
def dE3 : Date := ⟨2024, 2, 1, 5⟩

/-- History of the C10 witness: B outperforms A over the lookback window. -/
def histC10 : History :=
  ⟨["Close_A", "Close_B"],
   [(dE1, [("Close_A", some 1), ("Close_B", some 1)]),
    (dE2, [("Close_A", some 1), ("Close_B", some 2)]),
    (dE3, [("Close_A", some 1), ("Close_B", some 2)])]⟩

/-- Ledger of the C10 witness: 1 share of A and cash 10, from initial 20. -/
def portC10 : Portfolio :=
  Portfolio.execute_transaction (mkPortfolio 20) "A" 1 10 dX0

/-- Witness for C10: the rebalance signal `[("A", -1), ("B", 5)]` splits as
the sell of A followed by the buy leg of the winner B. -/
theorem momentum_sells_before_buy_witness :
    ∃ sells rest, ([("A", -1), ("B", 5)] : List (String × Int)) = sells ++ rest ∧
      (∀ e ∈ sells, e.2 < 0) ∧
      (rest = [] ∨ ∃ w d, rest = [(w, d)] ∧ ∀ e ∈ sells, e.1 ≠ w) ∧
      (∀ (q : Portfolio) (dd : Date) (cols : List String) (row : Row),
        executeSignals q dd cols row [("A", -1), ("B", 5)] =
          executeSignals (executeSignals q dd cols row sells) dd cols row rest) := by
  have hpos : ∀ e ∈ portC10.holdings, 0 < e.2 := by
    have hhold : portC10.holdings = [("A", 1)] := by
      simp [portC10, Portfolio.execute_transaction, Portfolio.record_transaction, mkPortfolio,
        dictInsert, dictGetD,
        show ¬ ((20:ℚ) < 1 * 10) from by norm_num,
        show ¬ ((20:ℚ) < 10) from by norm_num]
    rw [hhold]; intro e he; simp at he; simp [he]
  have hsig : MomentumStrategy.generate_signals ⟨["A", "B"], 1, "daily"⟩ dE3 histC10 portC10
      = some [("A", -1), ("B", 5)] := by
    simp [MomentumStrategy.generate_signals, isRebalanceDay, lookbackRows,
      computeMomentum, momentumLoop, tickerScore, argmaxFirst, argmaxGo, liquidationSignals,
      filterNonzero, dictInsert, dictGetD, dictErase, keyMem, rowGet, rowAt, seriesGet,
      optAdd, Portfolio.get_total_value, Portfolio.get_holdings_value,
      Portfolio.execute_transaction, Portfolio.record_transaction, mkPortfolio, portC10,
      Date.subMonths, Date.key, daysInMonth, filterMap_cons_eval,
      show priceCol "A" = "Close_A" from rfl, show priceCol "B" = "Close_B" from rfl,
      show ((1:ℚ)-1)/1 = 0 from by norm_num,
      show ((2:ℚ)-1)/1 = 1 from by norm_num,
      show (0:ℚ) < 1 from by norm_num,
      show (0:ℚ) < 2 from by norm_num,
      show ¬ ((20:ℚ) < 1 * 10) from by norm_num,
      show ¬ ((20:ℚ) < 10) from by norm_num,
      show (20:ℚ) - 1 * 10 = 10 from by norm_num,
      show (20:ℚ) - 10 = 10 from by norm_num,
      show (1:ℚ) + 10 = 11 from by norm_num,
      show pyInt ((11:ℚ)/2) = 5 from by norm_num [pyInt],
      histC10, dE1, dE2, dE3, dX0]
  exact momentum_sells_before_buy ⟨["A", "B"], 1, "daily"⟩ dE3 histC10 portC10
    [("A", -1), ("B", 5)] hpos hsig

/-- Python `max` scan: the result is either the initial best paired with a
bound on the whole list, or the first strictly improving entry: the scanned
prefix before it is strictly below it and everything after at most equal. -/
theorem argmaxGo_split (l : List (String × ℚ)) (bt : String) (bs : ℚ) :
    (argmaxGo bt bs l = (bt, bs) ∧ ∀ e ∈ l, e.2 ≤ bs) ∨
    (∃ l1 e l2, l = l1 ++ e :: l2 ∧ argmaxGo bt bs l = e ∧ bs < e.2 ∧
      (∀ x ∈ l1, x.2 < e.2) ∧ (∀ x ∈ l2, x.2 ≤ e.2)) := by
  induction l generalizing bt bs with
  | nil => exact Or.inl ⟨rfl, by simp⟩
  | cons a rest ih =>
    by_cases hlt : bs < a.2
    · rcases ih a.1 a.2 with ⟨heq, hle⟩ | ⟨l1, e, l2, hsplit, heq, hbs, hl1, hl2⟩
      · refine Or.inr ⟨[], a, rest, by simp, ?_, hlt, by simp, hle⟩
        simp [argmaxGo, hlt, heq]
      · refine Or.inr ⟨a :: l1, e, l2, by simp [hsplit], ?_, lt_trans hlt hbs, ?_, hl2⟩
        · simp [argmaxGo, hlt, heq]
        · intro x hx
          rcases List.mem_cons.mp hx with hx | hx
          · rw [hx]; exact hbs
          · exact hl1 x hx
    · rcases ih bt bs with ⟨heq, hle⟩ | ⟨l1, e, l2, hsplit, heq, hbs, hl1, hl2⟩
      · refine Or.inl ⟨by simp [argmaxGo, hlt, heq], ?_⟩
        intro x hx
        rcases List.mem_cons.mp hx with hx | hx
        · rw [hx]; exact not_lt.mp hlt
        · exact hle x hx
      · refine Or.inr ⟨a :: l1, e, l2, by simp [hsplit], ?_, hbs, ?_, hl2⟩
        · simp [argmaxGo, hlt, heq]
        · intro x hx
          rcases List.mem_cons.mp hx with hx | hx
          · rw [hx]; exact lt_of_le_of_lt (not_lt.mp hlt) hbs
          · exact hl1 x hx

/-- The selected maximum splits the dict into a strictly smaller prefix, the
winner, and an at-most-equal suffix — so it is the first maximal entry in
iteration order. -/
theorem argmaxFirst_split (m : List (String × ℚ)) (w : String × ℚ)
    (hw : argmaxFirst m = some w) :
    ∃ l1 l2, m = l1 ++ w :: l2 ∧ (∀ x ∈ l1, x.2 < w.2) ∧ (∀ x ∈ l2, x.2 ≤ w.2) := by
  cases m with
  | nil => cases hw
  | cons a rest =>
    have hw' : argmaxGo a.1 a.2 rest = w := Option.some.inj (by simpa [argmaxFirst] using hw)
    rcases argmaxGo_split rest a.1 a.2 with ⟨heq, hle⟩ | ⟨l1, e, l2, hsplit, heq, hbs, hl1, hl2⟩
    · have hwa : w = a := by rw [← hw', heq, Prod.mk.eta]
      refine ⟨[], rest, by simp [hwa], by simp, ?_⟩
      intro x hx
      rw [hwa]
      exact hle x hx
    · have hwe : w = e := by rw [← hw', heq]
      subst hwe
      refine ⟨a :: l1, l2, by simp [hsplit], ?_, hl2⟩
      intro x hx
      rcases List.mem_cons.mp hx with hx | hx
      · rw [hx]; exact hbs
      · exact hl1 x hx

/-- The per-ticker score entry produced by the momentum loop. -/
def scoreEntry (h : History) (dt : Date) (lb : Int) (t : String) : Option (String × ℚ) :=
  (tickerScore h dt lb t).map (fun sc => (t, sc))

/-- With distinct tickers the momentum loop appends the scored entries in
ticker-list order after the accumulator. -/
theorem momentumLoop_eq (h : History) (dt : Date) (lb : Int) (ts : List String)
    (acc : List (String × ℚ)) (hfresh : ∀ t ∈ ts, ∀ e ∈ acc, e.1 ≠ t) (hnd : ts.Nodup) :
    momentumLoop h dt lb ts acc = acc ++ ts.filterMap (scoreEntry h dt lb) := by
  induction ts generalizing acc with
  | nil => simp [momentumLoop]
  | cons t ts ih =>
    have hnotin : t ∉ ts := (List.nodup_cons.mp hnd).1
    have hnd' : ts.Nodup := (List.nodup_cons.mp hnd).2
    cases hsc : tickerScore h dt lb t with
    | none =>
      rw [momentumLoop, hsc]
      show momentumLoop h dt lb ts acc = acc ++ List.filterMap (scoreEntry h dt lb) (t :: ts)
      rw [ih acc (fun t' ht' e he => hfresh t' (List.mem_cons_of_mem t ht') e he) hnd']
      simp [List.filterMap_cons, scoreEntry, hsc]
    | some sc =>
      rw [momentumLoop, hsc]
      show momentumLoop h dt lb ts (dictInsert acc t sc)
        = acc ++ List.filterMap (scoreEntry h dt lb) (t :: ts)
      have hins : dictInsert acc t sc = acc ++ [(t, sc)] :=
        dictInsert_eq_append acc t sc (fun e he => hfresh t (List.mem_cons_self t ts) e he)
      rw [hins]
      have hfresh' : ∀ t' ∈ ts, ∀ e ∈ acc ++ [(t, sc)], e.1 ≠ t' := by
        intro t' ht' e he
        rcases List.mem_append.mp he with he | he
        · exact hfresh t' (List.mem_cons_of_mem t ht') e he
        · simp at he
          rw [he]
          show t ≠ t'
          exact fun hc => hnotin (by rwa [hc])
      rw [ih (acc ++ [(t, sc)]) hfresh' hnd']
      simp [List.filterMap_cons, scoreEntry, hsc]

/-- With distinct tickers the momentum dict is the scored entries in
ticker-list order. -/
theorem computeMomentum_eq (h : History) (dt : Date) (lb : Int) (ts : List String)
    (hnd : ts.Nodup) :
    computeMomentum h dt lb ts = ts.filterMap (scoreEntry h dt lb) := by
  rw [computeMomentum, momentumLoop_eq h dt lb ts [] (by simp) hnd]
  simp

/-- Every momentum entry's key is one of the configured tickers. -/
theorem scoreEntries_keys_mem (h : History) (dt : Date) (lb : Int) (ts : List String) :
    ∀ e ∈ ts.filterMap (scoreEntry h dt lb), e.1 ∈ ts := by
  intro e he
  rcases List.mem_filterMap.mp he with ⟨t, ht, hte⟩
  rcases Option.map_eq_some'.mp hte with ⟨sc, _, hsc⟩
  rw [← hsc]
  exact ht

/-- With distinct tickers the momentum entries are strictly ordered by their
keys' first occurrence in the configured ticker list. -/
theorem scoreEntries_pairwise (h : History) (dt : Date) (lb : Int) (ts : List String)
    (hnd : ts.Nodup) :
    List.Pairwise (fun a b : String × ℚ => ts.indexOf a.1 < ts.indexOf b.1)
      (ts.filterMap (scoreEntry h dt lb)) := by
  induction ts with
  | nil => simp
  | cons t ts ih =>
    have hnotin : t ∉ ts := (List.nodup_cons.mp hnd).1
    have hnd' : ts.Nodup := (List.nodup_cons.mp hnd).2
    have hlift : List.Pairwise
        (fun a b : String × ℚ => (t :: ts).indexOf a.1 < (t :: ts).indexOf b.1)
        (ts.filterMap (scoreEntry h dt lb)) := by
      refine List.Pairwise.imp_of_mem ?_ (ih hnd')
      intro a b ha hb hr
      have hat : a.1 ≠ t := fun hc => hnotin (hc ▸ scoreEntries_keys_mem h dt lb ts a ha)
      have hbt : b.1 ≠ t := fun hc => hnotin (hc ▸ scoreEntries_keys_mem h dt lb ts b hb)
      rw [List.indexOf_cons_ne ts (Ne.symm hat), List.indexOf_cons_ne ts (Ne.symm hbt)]
      exact Nat.succ_lt_succ hr
    cases hsc : tickerScore h dt lb t with
    | none =>
      rw [List.filterMap_cons]
      simpa [scoreEntry, hsc] using hlift
    | some sc =>
      rw [List.filterMap_cons]
      simp only [scoreEntry, hsc, Option.map_some']
      refine List.pairwise_cons.mpr ⟨?_, hlift⟩
      intro b hb
      have hbt : b.1 ≠ t := fun hc => hnotin (hc ▸ scoreEntries_keys_mem h dt lb ts b hb)
      rw [List.indexOf_cons_self, List.indexOf_cons_ne ts (Ne.symm hbt)]
      exact Nat.succ_pos _

/-- C5: when at least one configured (distinct) ticker has a computable
score, the selected winner carries the maximum momentum score, and any entry
sharing that maximum lies at or after the winner's first occurrence in the
configured ticker list — the tie goes to the earlier-listed ticker; the
selection is a pure function of its inputs, hence deterministic across runs. -/
theorem momentum_winner_max_first (h : History) (dt : Date) (lb : Int)
    (tickers : List String) (hnd : tickers.Nodup)
    (hm : computeMomentum h dt lb tickers ≠ []) :
    ∃ w, argmaxFirst (computeMomentum h dt lb tickers) = some w ∧
      w ∈ computeMomentum h dt lb tickers ∧
      (∀ e ∈ computeMomentum h dt lb tickers, e.2 ≤ w.2) ∧
      (∀ e ∈ computeMomentum h dt lb tickers, e.2 = w.2 →
        tickers.indexOf w.1 ≤ tickers.indexOf e.1) := by
  obtain ⟨w, hw⟩ : ∃ w, argmaxFirst (computeMomentum h dt lb tickers) = some w := by
    cases hmm : computeMomentum h dt lb tickers with
    | nil => exact absurd hmm hm
    | cons a rest => exact ⟨argmaxGo a.1 a.2 rest, by simp [argmaxFirst, hmm]⟩
  obtain ⟨l1, l2, hsplit, hl1, hl2⟩ := argmaxFirst_split _ w hw
  have hpw : List.Pairwise (fun a b : String × ℚ => tickers.indexOf a.1 < tickers.indexOf b.1)
      (computeMomentum h dt lb tickers) := by
    rw [computeMomentum_eq h dt lb tickers hnd]
    exact scoreEntries_pairwise h dt lb tickers hnd
  have hpw2 : ∀ x ∈ l2, tickers.indexOf w.1 < tickers.indexOf x.1 := by
    rw [hsplit] at hpw
    rcases List.pairwise_append.mp hpw with ⟨_, h2, _⟩
    exact (List.pairwise_cons.mp h2).1
  refine ⟨w, hw, by
    rw [hsplit]; exact List.mem_append_right l1 (List.mem_cons_self w l2), ?_, ?_⟩
  · intro e he
    rw [hsplit] at he
    rcases List.mem_append.mp he with he | he
    · exact (hl1 e he).le
    · rcases List.mem_cons.mp he with he | he
      · rw [he]
      · exact hl2 e he
  · intro e he heq
    rw [hsplit] at he
    rcases List.mem_append.mp he with he | he
    · exact absurd heq (ne_of_lt (hl1 e he))
    · rcases List.mem_cons.mp he with he | he
      · rw [he]
      · exact (hpw2 e he).le

/-- First lookback day of the C5 tie witness history. -/
def dC51 : Date := ⟨2024, 1, 10, 2⟩

/-- Second lookback day of the C5 tie witness history. -/
def dC52 : Date := ⟨2024, 1, 20, 3⟩

/-- Rebalance day of the C5 tie witness history. -/
def dC53 : Date := ⟨2024, 2, 1, 5⟩

/-- History in which A and B both return exactly +10% over the lookback
window, producing a momentum tie. -/
def histC5 : History :=
  ⟨["Close_A", "Close_B"],
   [(dC51, [("Close_A", some 100), ("Close_B", some 200)]),
    (dC52, [("Close_A", some 110), ("Close_B", some 220)]),
    (dC53, [("Close_A", some 100), ("Close_B", some 100)])]⟩

/-- Witness for C5: with the tied scores 1/10 for A and B, the winner is A,
the ticker listed first. -/
theorem momentum_winner_max_first_witness :
    (∃ w, argmaxFirst (computeMomentum histC5 dC53 1 ["A", "B"]) = some w ∧
      w ∈ computeMomentum histC5 dC53 1 ["A", "B"] ∧
      (∀ e ∈ computeMomentum histC5 dC53 1 ["A", "B"], e.2 ≤ w.2) ∧
      (∀ e ∈ computeMomentum histC5 dC53 1 ["A", "B"], e.2 = w.2 →
        (["A", "B"] : List String).indexOf w.1 ≤ (["A", "B"] : List String).indexOf e.1)) ∧
    computeMomentum histC5 dC53 1 ["A", "B"] = [("A", 1/10), ("B", 1/10)] ∧
    argmaxFirst (computeMomentum histC5 dC53 1 ["A", "B"]) = some ("A", 1/10) := by
  have hmom : computeMomentum histC5 dC53 1 ["A", "B"] = [("A", 1/10), ("B", 1/10)] := by
    simp [computeMomentum, momentumLoop, tickerScore, lookbackRows, Date.subMonths, Date.key,
      daysInMonth, dictInsert, rowGet, filterMap_cons_eval,
      show priceCol "A" = "Close_A" from rfl, show priceCol "B" = "Close_B" from rfl,
      show ((110:ℚ)-100)/100 = 1/10 from by norm_num,
      show ((220:ℚ)-200)/200 = 1/10 from by norm_num,
      histC5, dC51, dC52, dC53]
  refine ⟨momentum_winner_max_first histC5 dC53 1 ["A", "B"] (by decide)
    (by rw [hmom]; simp), hmom, ?_⟩
  rw [hmom]
  simp [argmaxFirst, argmaxGo]
